import Mathlib

/-
Shallow embedding of the to-do dashboard client logic
(src/to-do-dashboard/App.tsx, services/api.ts, components/TaskForm.tsx,
src/to-do-dashboard/constants.ts bundled App variant, src/unnamed/part_000 types).

Strings are modelled as lists of characters.  JavaScript Date values are
modelled as integer millisecond timestamps; a date-only string
"YYYY-MM-DD" parses to UTC midnight of that calendar day (ECMAScript
semantics for date-only forms), while toDateString and setHours(0,0,0,0)
work in local time.  The ambient clock therefore carries the current
instant and the UTC offset of the local timezone.
-/

namespace TodoApp

/-- Strings as lists of characters. -/
abbrev Str := List Char

/-- Whitespace characters removed by the JavaScript trim method. -/
def isWS (c : Char) : Bool := c = ' ' || c = '\t' || c = '\n' || c = '\r'

/-- JavaScript String.prototype.trim: drop whitespace at both ends. -/
def trim (s : Str) : Str := ((s.dropWhile isWS).reverse.dropWhile isWS).reverse

/-- JavaScript String.prototype.split with separator comma:
the empty string yields one empty segment, and each comma opens a new
segment. -/
def splitComma : Str → List Str
  | [] => [[]]
  | c :: cs =>
    if c = ',' then [] :: splitComma cs
    else
      match splitComma cs with
      | [] => [[c]]
      | s :: ss => (c :: s) :: ss

/-- The tag-string conversion used by createTask and updateTask in
services/api.ts: split on commas, trim each segment, discard empty
segments. -/
def splitTags (s : Str) : List Str :=
  ((splitComma s).map trim).filter (fun t => !t.isEmpty)

/-- JavaScript Array.prototype.join with separator comma-space, as used by
TaskForm to load the tags of an existing task into the form field. -/
def joinTags : List Str → Str
  | [] => []
  | [t] => t
  | t :: ts => t ++ ',' :: ' ' :: joinTags ts

/-! ### Dates and the clock -/

/-- Milliseconds per calendar day. -/
def msPerDay : Int := 86400000

/-- Numeric value of a decimal digit character. -/
def digit (c : Char) : Int := (c.toNat : Int) - 48

/-- Days since 1970-01-01 of the civil date y-m-d (the standard
days-from-civil computation, using floor division). -/
def daysFromCivil (y m d : Int) : Int :=
  let y2 := if m ≤ 2 then y - 1 else y
  let era := y2.fdiv 400
  let yoe := y2 - era * 400
  let mp := (m + 9) % 12
  let doy := (153 * mp + 2).fdiv 5 + d - 1
  let doe := yoe * 365 + yoe.fdiv 4 - yoe.fdiv 100 + doy
  era * 146097 + doe - 719468

/-- JavaScript new Date(s).getTime() for a date-only string s of the form
YYYY-MM-DD: UTC midnight of that calendar day.  Strings not of this
ten-character shape are outside the data-model invariant (a valid
calendar date string); they are mapped to 0 here, whereas JavaScript
would produce an invalid date. -/
def parseDateMs (s : Str) : Int :=
  match s with
  | [y1, y2, y3, y4, '-', m1, m2, '-', d1, d2] =>
      daysFromCivil (1000 * digit y1 + 100 * digit y2 + 10 * digit y3 + digit y4)
        (10 * digit m1 + digit m2) (10 * digit d1 + digit d2) * msPerDay
  | _ => 0

/-- The ambient clock: the current instant in UTC milliseconds, and the
UTC offset of the local timezone in milliseconds (local time equals UTC
plus the offset).  Real offsets are strictly within one day. -/
structure Clock where
  nowMs : Int
  tzMs : Int
  tz_lb : -msPerDay < tzMs
  tz_ub : tzMs < msPerDay

/-- The local calendar day number containing the instant t: this is what
toDateString equality between two instants compares. -/
def localDay (c : Clock) (t : Int) : Int := (t + c.tzMs).fdiv msPerDay

/-- new Date() followed by setHours(0,0,0,0): the instant starting the
current local day. -/
def startOfToday (c : Clock) : Int := localDay c c.nowMs * msPerDay - c.tzMs

/-! ### Data model (src/unnamed/part_000) -/

/-- A task as delivered by the backend. -/
structure Task where
  id : Int
  title : Str
  done : Bool
  priority : Int
  due_date : Option Str
  created_at : Str
  updated_at : Str
  notes : Option Str
  tags : List Str
deriving DecidableEq

/-- The filter tabs. -/
inductive TaskFilter
  | all
  | open_
  | today
  | overdue
deriving DecidableEq

/-- The transient create/edit form state. -/
structure TaskFormData where
  title : Str
  priority : Int
  due_date : Str
  notes : Str
  tags : Str
deriving DecidableEq

/-! ### Filtering and sorting (App.tsx, filteredTasks) -/

/-- JavaScript truthiness of the due_date field: present and nonempty. -/
def hasDue (t : Task) : Bool :=
  match t.due_date with
  | some s => !s.isEmpty
  | none => false

/-- The parsed due date of a task (UTC midnight of the written day). -/
def dueMs (t : Task) : Int := parseDateMs (t.due_date.getD [])

/-- The today tab predicate: not done, due date present, and the parsed
due instant falls on the current local calendar day
(new Date(t.due_date).toDateString() === todayStr). -/
def isToday (c : Clock) (t : Task) : Bool :=
  !t.done && hasDue t && (localDay c (dueMs t) == localDay c c.nowMs)

/-- The overdue tab predicate: not done, due date present, and the parsed
due instant is strictly before the start of the current local day
(new Date(t.due_date) < now). -/
def isOverdue (c : Clock) (t : Task) : Bool :=
  !t.done && hasDue t && decide (dueMs t < startOfToday c)

/-- The tab filter stage of filteredTasks. -/
def filterTasks (c : Clock) (f : TaskFilter) (l : List Task) : List Task :=
  match f with
  | .all => l
  | .open_ => l.filter (fun t => !t.done)
  | .today => l.filter (isToday c)
  | .overdue => l.filter (isOverdue c)

/-- The sort comparator of filteredTasks: done status, then priority,
then due dates (both present: earlier first; exactly one present: the
dated task first; both absent: higher id first). -/
def cmpTask (a b : Task) : Int :=
  if a.done != b.done then (if a.done then 1 else -1)
  else if a.priority != b.priority then a.priority - b.priority
  else if hasDue a && hasDue b then dueMs a - dueMs b
  else if hasDue a && !hasDue b then -1
  else if !hasDue a && hasDue b then 1
  else b.id - a.id

/-- The Boolean ordering derived from the comparator. -/
def taskLe (a b : Task) : Bool := decide (cmpTask a b ≤ 0)

/-- Array.prototype.sort with the comparator above.  With a consistent
comparator the ECMAScript sort is the stable sort by the induced
ordering, modelled by the stable mergeSort. -/
def sortTasks (l : List Task) : List Task := l.mergeSort taskLe

/-- The derived view: tab filter followed by the sort. -/
def filteredTasks (c : Clock) (f : TaskFilter) (l : List Task) : List Task :=
  sortTasks (filterTasks c f l)

/-! ### Stats aggregator (constants.ts bundled App variant, stats) -/

/-- The computed dashboard counters. -/
structure Stats where
  total : Nat
  open_ : Nat
  done : Nat
  dueToday : Nat
  overdue : Nat
deriving DecidableEq

/-- The due-today predicate as written in the stats aggregator: it
compares toDateString of the parsed due date against toDateString of the
zeroed-out now value. -/
def statToday (c : Clock) (t : Task) : Bool :=
  !t.done && hasDue t && (localDay c (dueMs t) == localDay c (startOfToday c))

/-- The overdue predicate as written in the stats aggregator. -/
def statOverdue (c : Clock) (t : Task) : Bool :=
  !t.done && hasDue t && decide (dueMs t < startOfToday c)

/-- The stats aggregator: total, open, done = total - open, due today,
overdue. -/
def stats (c : Clock) (l : List Task) : Stats :=
  let total := l.length
  let opn := (l.filter (fun t => !t.done)).length
  { total := total
    open_ := opn
    done := total - opn
    dueToday := (l.filter (statToday c)).length
    overdue := (l.filter (statOverdue c)).length }

/-! ### Form mapping (TaskForm.tsx) and API payloads (services/api.ts) -/

/-- Loading an existing task into the form: absent due_date and notes
become empty strings, tags join into a comma-and-space string. -/
def formOfTask (t : Task) : TaskFormData :=
  { title := t.title
    priority := t.priority
    due_date := t.due_date.getD []
    notes := t.notes.getD []
    tags := joinTags t.tags }

/-- A JSON body field: absent key, explicit null, or a value. -/
inductive Field (α : Type)
  | absent
  | null
  | val (a : α)
deriving DecidableEq

/-- The JSON body sent to the backend by createTask or updateTask. -/
structure Payload where
  title : Field Str
  priority : Field Int
  done : Field Bool
  due_date : Field Str
  notes : Field Str
  tags : Field (List Str)
deriving DecidableEq

/-- The createTask payload: spread of the form data, with the tags string
split into an array and empty due_date and notes replaced by null. -/
def createPayload (d : TaskFormData) : Payload :=
  { title := .val d.title
    priority := .val d.priority
    done := .absent
    due_date := if d.due_date.isEmpty then .null else .val d.due_date
    notes := if d.notes.isEmpty then .null else .val d.notes
    tags := .val (splitTags d.tags) }

/-- The updateTask argument: a partial form record or a done flag; absent
components correspond to keys missing from the object. -/
structure UpdateInput where
  title : Option Str := none
  priority : Option Int := none
  due_date : Option Str := none
  notes : Option Str := none
  tags : Option Str := none
  done : Option Bool := none
deriving DecidableEq

/-- The updateTask payload: spread of the input; a present tags string is
split into an array; a present empty due_date or notes becomes null. -/
def updatePayload (d : UpdateInput) : Payload :=
  { title := match d.title with | some s => .val s | none => .absent
    priority := match d.priority with | some p => .val p | none => .absent
    done := match d.done with | some b => .val b | none => .absent
    due_date :=
      match d.due_date with
      | some s => if s.isEmpty then .null else .val s
      | none => .absent
    notes :=
      match d.notes with
      | some s => if s.isEmpty then .null else .val s
      | none => .absent
    tags := match d.tags with | some s => .val (splitTags s) | none => .absent }

/-- The update input produced by submitting the full edit form
(handleUpdate passes the whole TaskFormData). -/
def updateInputOfForm (d : TaskFormData) : UpdateInput :=
  { title := some d.title
    priority := some d.priority
    due_date := some d.due_date
    notes := some d.notes
    tags := some d.tags
    done := none }

/-- The update input produced by toggling completion: only the done key. -/
def toggleInput (b : Bool) : UpdateInput := { done := some b }

/-! ### Handlers (App.tsx) -/

/-- The per-task map body of the optimistic update in handleToggleDone:
the task with the toggled id gets the new done value. -/
def toggleOne (x t : Task) : Task :=
  if t.id = x.id then { t with done := !x.done } else t

/-- The optimistic update applied to the local list. -/
def toggleOptimistic (l : List Task) (x : Task) : List Task :=
  l.map (toggleOne x)

/-- The per-task map body of the error rollback in handleToggleDone: the
task with the toggled id gets the negation of the new done value. -/
def revertOne (x t : Task) : Task :=
  if t.id = x.id then { t with done := !(!x.done) } else t

/-- The rollback applied to the local list. -/
def toggleRevert (l : List Task) (x : Task) : List Task :=
  l.map (revertOne x)

/-- handleToggleDone end to end: apply the optimistic update, then either
keep it (network success) or roll back and report an error (network
failure).  The Boolean result records whether the error alert was shown. -/
def handleToggleDone (l : List Task) (x : Task) (apiOk : Bool) : List Task × Bool :=
  let l1 := toggleOptimistic l x
  if apiOk then (l1, false) else (toggleRevert l1 x, true)

/-- handleDelete end to end: without confirmation nothing happens and no
network call is made; with confirmation the call is made, and the task is
removed on success while a failure leaves the list unchanged and reports
an error.  The Boolean results record whether the network call was issued
and whether the error alert was shown. -/
def handleDelete (l : List Task) (x : Task) (confirmed apiOk : Bool) :
    List Task × Bool × Bool :=
  if !confirmed then (l, false, false)
  else if apiOk then (l.filter (fun t => t.id != x.id), true, false)
  else (l, true, true)

/-! ### Spec-side predicates (for refinement comparison)

The following definitions follow the wording of the specification rather
than the source, so that the source-derived predicates can be compared
against them. -/

/-- Follows the spec wording for the today filter: done = false, due_date
present, and the calendar day written in due_date equals the current
local calendar day. -/
def specToday (c : Clock) (t : Task) : Bool :=
  !t.done && hasDue t && ((dueMs t).fdiv msPerDay == localDay c c.nowMs)

/-- Follows the spec wording for the overdue filter: done = false,
due_date present, and due_date taken at local midnight is strictly
earlier than the start of the current local day. -/
def specOverdue (c : Clock) (t : Task) : Bool :=
  !t.done && hasDue t &&
    decide ((dueMs t).fdiv msPerDay * msPerDay - c.tzMs < startOfToday c)

/-- Follows the spec wording: the predicate each filter mode keeps. -/
def specKeep (c : Clock) : TaskFilter → Task → Bool
  | .all => fun _ => true
  | .open_ => fun t => !t.done
  | .today => specToday c
  | .overdue => specOverdue c

/-- Follows the amended spec wording for the sort: a sorts strictly
before b when a is open and b done; or equal status and lower priority;
or equal status and priority and only a dated; or both dated and a due
earlier; or neither dated and a has the higher id. -/
def specBefore (a b : Task) : Prop :=
  (a.done = false ∧ b.done = true)
  ∨ (a.done = b.done ∧ a.priority < b.priority)
  ∨ (a.done = b.done ∧ a.priority = b.priority ∧ hasDue a = true ∧ hasDue b = false)
  ∨ (a.done = b.done ∧ a.priority = b.priority ∧ hasDue a = true ∧ hasDue b = true
      ∧ dueMs a < dueMs b)
  ∨ (a.done = b.done ∧ a.priority = b.priority ∧ hasDue a = false ∧ hasDue b = false
      ∧ b.id < a.id)

/-- Follows the amended spec wording for sort ties: equal status, equal
priority, and either both dated with equal parsed due dates, or neither
dated with equal ids. -/
def specTie (a b : Task) : Prop :=
  a.done = b.done ∧ a.priority = b.priority ∧
    ((hasDue a = true ∧ hasDue b = true ∧ dueMs a = dueMs b)
      ∨ (hasDue a = false ∧ hasDue b = false ∧ a.id = b.id))

/-! ### Sort key machinery -/

/-- The lexicographic key realised by the comparator. -/
def sortKey (t : Task) : Int × Int × Int × Int :=
  ((if t.done then 1 else 0), t.priority, (if hasDue t then 0 else 1),
    (if hasDue t then dueMs t else -t.id))

/-- Lexicographic order on the sort keys. -/
def keyLe (p q : Int × Int × Int × Int) : Prop :=
  p.1 < q.1 ∨ (p.1 = q.1 ∧ (p.2.1 < q.2.1 ∨ (p.2.1 = q.2.1 ∧
    (p.2.2.1 < q.2.2.1 ∨ (p.2.2.1 = q.2.2.1 ∧ p.2.2.2 ≤ q.2.2.2)))))

/-! ### Concrete sample data for witnesses and counterexamples -/

/-- A plain open task without a due date. -/
def sampleTask : Task :=
  { id := 1, title := [], done := false, priority := 3, due_date := none,
    created_at := [], updated_at := [], notes := none, tags := [] }

/-- A task due on 1970-01-01 (parsed instant 0). -/
def dueEpochTask : Task := { sampleTask with due_date := some ("1970-01-01".toList) }

/-- A clock at noon UTC on 1970-01-01 in a timezone one hour east of UTC. -/
def eastClock : Clock := ⟨43200000, 3600000, by decide, by decide⟩

/-- A clock at noon UTC on 1970-01-01 in a timezone one hour west of UTC. -/
def westClock : Clock := ⟨43200000, -3600000, by decide, by decide⟩

/-- First task of the equal-due-date pair. -/
def cx1a : Task := { sampleTask with due_date := some ("2026-01-01".toList) }

/-- Second task of the equal-due-date pair: same fields, higher id. -/
def cx1b : Task := { cx1a with id := 2 }

/-- A task whose tag list contains the empty string. -/
def cx7task : Task := { sampleTask with id := 7, tags := [[], ['a']] }

/-- A form with empty due date and notes. -/
def sampleForm : TaskFormData :=
  { title := ['x'], priority := 2, due_date := [], notes := [], tags := ['a'] }

/-- A second task with a different id. -/
def otherTask : Task := { sampleTask with id := 2 }

/-! ### Helper lemmas -/

theorem cmpTask_nonpos_iff (a b : Task) :
    cmpTask a b ≤ 0 ↔ keyLe (sortKey a) (sortKey b) := by
  rcases ha : a.done <;> rcases hb : b.done <;>
    rcases hda : hasDue a <;> rcases hdb : hasDue b <;>
      by_cases hp : a.priority = b.priority <;>
        simp [cmpTask, sortKey, keyLe, ha, hb, hda, hdb, hp, bne_iff_ne] <;> omega

theorem keyLe_trans {p q r : Int × Int × Int × Int} :
    keyLe p q → keyLe q r → keyLe p r := by
  obtain ⟨a1, a2, a3, a4⟩ := p
  obtain ⟨b1, b2, b3, b4⟩ := q
  obtain ⟨c1, c2, c3, c4⟩ := r
  simp only [keyLe]
  omega

theorem keyLe_total (p q : Int × Int × Int × Int) : keyLe p q ∨ keyLe q p := by
  obtain ⟨a1, a2, a3, a4⟩ := p
  obtain ⟨b1, b2, b3, b4⟩ := q
  simp only [keyLe]
  omega

theorem taskLe_trans (a b c : Task) (h1 : taskLe a b) (h2 : taskLe b c) :
    taskLe a c := by
  simp only [taskLe, decide_eq_true_eq] at h1 h2 ⊢
  rw [cmpTask_nonpos_iff] at h1 h2 ⊢
  exact keyLe_trans h1 h2

theorem taskLe_total (a b : Task) : taskLe a b || taskLe b a := by
  simp only [taskLe, Bool.or_eq_true, decide_eq_true_eq]
  rw [cmpTask_nonpos_iff, cmpTask_nonpos_iff]
  exact keyLe_total _ _

theorem cmpTask_neg_iff (a b : Task) : cmpTask a b < 0 ↔ specBefore a b := by
  rcases ha : a.done <;> rcases hb : b.done <;>
    rcases hda : hasDue a <;> rcases hdb : hasDue b <;>
      by_cases hp : a.priority = b.priority <;>
        simp [cmpTask, specBefore, ha, hb, hda, hdb, hp, bne_iff_ne]

theorem cmpTask_zero_iff (a b : Task) : cmpTask a b = 0 ↔ specTie a b := by
  rcases ha : a.done <;> rcases hb : b.done <;>
    rcases hda : hasDue a <;> rcases hdb : hasDue b <;>
      by_cases hp : a.priority = b.priority <;>
        simp [cmpTask, specTie, ha, hb, hda, hdb, hp, bne_iff_ne] <;> omega

theorem sortTasks_idem (l : List Task) : sortTasks (sortTasks l) = sortTasks l :=
  List.mergeSort_of_sorted (List.sorted_mergeSort taskLe_trans taskLe_total l)

theorem filter_sortTasks (p : Task → Bool) (l : List Task) :
    (sortTasks (l.filter p)).filter p = sortTasks (l.filter p) := by
  apply List.filter_eq_self.mpr
  intro a ha
  have hm : a ∈ l.filter p := List.mem_mergeSort.mp ha
  exact (List.mem_filter.mp hm).2

theorem parseDateMs_dvd (s : Str) : ∃ d, parseDateMs s = d * msPerDay := by
  unfold parseDateMs
  split
  · exact ⟨_, rfl⟩
  · exact ⟨0, by simp⟩

theorem fdiv_msPerDay_bounds (x : Int) :
    x.fdiv msPerDay * msPerDay ≤ x ∧ x < (x.fdiv msPerDay + 1) * msPerDay := by
  have h := Int.fmod_add_fdiv x msPerDay
  have hn := Int.fmod_nonneg' x (show (0 : Int) < msPerDay by decide)
  have hl := Int.fmod_lt_of_pos x (show (0 : Int) < msPerDay by decide)
  simp only [msPerDay] at h hn hl ⊢
  omega

theorem fdiv_msPerDay_eq {x q : Int} (h1 : q * msPerDay ≤ x)
    (h2 : x < (q + 1) * msPerDay) : x.fdiv msPerDay = q := by
  have h := Int.fmod_add_fdiv x msPerDay
  have hn := Int.fmod_nonneg' x (show (0 : Int) < msPerDay by decide)
  have hl := Int.fmod_lt_of_pos x (show (0 : Int) < msPerDay by decide)
  simp only [msPerDay] at h hn hl h1 h2 ⊢
  omega

theorem localDay_mul_of_nonneg_tz (c : Clock) (d : Int) (h : 0 ≤ c.tzMs) :
    localDay c (d * msPerDay) = d := by
  have hub := c.tz_ub
  apply fdiv_msPerDay_eq
  · nlinarith [h]
  · have : d * msPerDay + c.tzMs < (d + 1) * msPerDay := by nlinarith [hub]
    simpa [localDay] using this

theorem localDay_startOfToday (c : Clock) :
    localDay c (startOfToday c) = localDay c c.nowMs := by
  unfold localDay startOfToday
  rw [sub_add_cancel]
  exact Int.mul_fdiv_cancel _ (by decide)

theorem isToday_eq_specToday (c : Clock) (t : Task) (h : 0 ≤ c.tzMs) :
    isToday c t = specToday c t := by
  obtain ⟨d, hd⟩ := parseDateMs_dvd (t.due_date.getD [])
  simp only [isToday, specToday, dueMs, hd]
  rw [localDay_mul_of_nonneg_tz c d h, Int.mul_fdiv_cancel d (by decide)]

theorem isOverdue_eq_specOverdue (c : Clock) (t : Task) (h : 0 ≤ c.tzMs) :
    isOverdue c t = specOverdue c t := by
  obtain ⟨d, hd⟩ := parseDateMs_dvd (t.due_date.getD [])
  have hub := c.tz_ub
  simp only [isOverdue, specOverdue, dueMs, hd, startOfToday]
  rw [Int.mul_fdiv_cancel d (by decide)]
  congr 1
  rw [decide_eq_decide]
  generalize localDay c c.nowMs = q
  simp only [msPerDay] at h hub ⊢
  omega

theorem splitComma_ne_nil (s : Str) : splitComma s ≠ [] := by
  induction s with
  | nil => simp [splitComma]
  | cons c cs ih =>
    simp only [splitComma]
    split
    · simp
    · split <;> simp

theorem splitComma_no_comma (s : Str) (h : ',' ∉ s) : splitComma s = [s] := by
  induction s with
  | nil => rfl
  | cons c cs ih =>
    simp only [List.mem_cons, not_or] at h
    obtain ⟨h1, h2⟩ := h
    have hcc : ¬c = ',' := fun hc => h1 hc.symm
    simp only [splitComma, ih h2, if_neg hcc]

theorem splitComma_append (xs ys : Str) (h : ',' ∉ xs) :
    splitComma (xs ++ ',' :: ys) = xs :: splitComma ys := by
  induction xs with
  | nil => simp [splitComma]
  | cons c cs ih =>
    simp only [List.mem_cons, not_or] at h
    obtain ⟨h1, h2⟩ := h
    have hcc : ¬c = ',' := fun hc => h1 hc.symm
    simp only [List.cons_append, splitComma, List.append_eq, ih h2, if_neg hcc]

theorem trim_cons_ws (c : Char) (s : Str) (h : isWS c = true) :
    trim (c :: s) = trim s := by
  simp [trim, List.dropWhile_cons, h]

theorem splitComma_cons_map_trim (c : Char) (ys : Str) (hc : ¬c = ',')
    (hw : isWS c = true) :
    (splitComma (c :: ys)).map trim = (splitComma ys).map trim := by
  obtain ⟨s, ss, hs⟩ : ∃ s ss, splitComma ys = s :: ss := by
    cases h : splitComma ys with
    | nil => exact absurd h (splitComma_ne_nil ys)
    | cons a as => exact ⟨a, as, rfl⟩
  simp only [splitComma, if_neg hc, hs, List.map_cons, trim_cons_ws c s hw]

theorem trim_eq_self_of_trimmed {t : Str} (h : trim t = t) :
    t.dropWhile isWS = t := by
  have hsub1 : (t.dropWhile isWS).Sublist t := List.dropWhile_sublist _
  have hlen1 : (t.dropWhile isWS).length ≤ t.length := hsub1.length_le
  have hsub2 : (((t.dropWhile isWS).reverse.dropWhile isWS)).Sublist
      (t.dropWhile isWS).reverse := List.dropWhile_sublist _
  have hlen2 := hsub2.length_le
  have hlen3 : (trim t).length = t.length := by rw [h]
  simp only [trim, List.length_reverse] at hlen3 hlen2
  exact hsub1.eq_of_length (by omega)

theorem splitTags_joinTags (ts : List Str)
    (h : ∀ t ∈ ts, t ≠ [] ∧ trim t = t ∧ ',' ∉ t) :
    splitTags (joinTags ts) = ts := by
  induction ts with
  | nil => rfl
  | cons t rest ih =>
    obtain ⟨h1, h2, h3⟩ := h t (by simp)
    cases rest with
    | nil =>
      have hne : (!t.isEmpty) = true := by simpa using h1
      simp only [joinTags, splitTags, splitComma_no_comma t h3, List.map_cons,
        List.map_nil, h2, List.filter, hne]
    | cons t2 ts2 =>
      have hrec := ih (fun u hu => h u (by simp [hu]))
      simp only [joinTags] at hrec ⊢
      rw [splitTags, splitComma_append t _ h3, List.map_cons,
        splitComma_cons_map_trim ' ' _ (by decide) (by decide), h2]
      rw [splitTags] at hrec
      simp only [List.filter]
      rw [show (!t.isEmpty) = true by simpa using h1, hrec]

theorem toggleRevert_toggleOptimistic (l : List Task) (x : Task)
    (hx : l.all (fun t => !(t.id == x.id) || (t.done == x.done)) = true) :
    toggleRevert (toggleOptimistic l x) x = l := by
  induction l with
  | nil => rfl
  | cons a as ih =>
    simp only [List.all_cons, Bool.and_eq_true] at hx
    obtain ⟨ha, has⟩ := hx
    simp only [toggleOptimistic, toggleRevert, List.map_cons, List.map_map] at ih ⊢
    have htail : as.map (revertOne x ∘ toggleOne x) = as := by
      have := ih has
      simpa [toggleOptimistic, toggleRevert, List.map_map] using this
    rw [htail]
    congr 1
    by_cases hid : a.id = x.id
    · have hdone : a.done = x.done := by
        rcases Bool.or_eq_true _ _ |>.mp ha with h | h
        · exact absurd hid (by simpa using h)
        · simpa using h
      obtain ⟨i, ti, dn, pr, dd, ca, ua, no, tg⟩ := a
      simp only [Function.comp_apply, toggleOne, revertOne] at *
      subst hid
      simp_all [Bool.not_not]
    · simp [Function.comp_apply, toggleOne, revertOne, hid]

/-! ### Claim theorems -/

/-- C1 (amended): the comparator applied after filtering induces a total
preorder; the sorted view is ordered by it; a sorts strictly before b
exactly by the rules: incomplete before completed, then lower priority
value first, then dated before undated and earlier date first among
dated; the higher-id tie-break applies only when neither task has a due
date, and two tasks with equal status, priority and equal present due
dates compare as equal (the stable sort preserves their input order). -/
theorem sort_order_rules (c : Clock) (f : TaskFilter) (l : List Task) :
    (filteredTasks c f l).Pairwise (fun a b => cmpTask a b ≤ 0) ∧
    (∀ a b : Task, cmpTask a b ≤ 0 ∨ cmpTask b a ≤ 0) ∧
    (∀ a b d : Task, cmpTask a b ≤ 0 → cmpTask b d ≤ 0 → cmpTask a d ≤ 0) ∧
    (∀ a b : Task, cmpTask a b < 0 ↔ specBefore a b) ∧
    (∀ a b : Task, cmpTask a b = 0 ↔ specTie a b) := by
  refine ⟨?_, ?_, ?_, cmpTask_neg_iff, cmpTask_zero_iff⟩
  · have hs := List.sorted_mergeSort taskLe_trans taskLe_total (filterTasks c f l)
    exact hs.imp fun h => by
      simp only [taskLe, decide_eq_true_eq] at h
      exact h
  · intro a b
    have h := taskLe_total a b
    simp only [taskLe, Bool.or_eq_true, decide_eq_true_eq] at h
    exact h
  · intro a b d h1 h2
    have h := taskLe_trans a b d
      (by simp only [taskLe, decide_eq_true_eq]; exact h1)
      (by simp only [taskLe, decide_eq_true_eq]; exact h2)
    simp only [taskLe, decide_eq_true_eq] at h
    exact h

/-- Witness for C1: the transitivity conjunct applied at concrete tasks. -/
theorem sort_order_rules_witness : cmpTask sampleTask sampleTask ≤ 0 :=
  (sort_order_rules eastClock .all []).2.2.1 sampleTask sampleTask sampleTask
    (by decide) (by decide)

/-- Counterexample to C1 as stated: two distinct tasks with equal status,
equal priority and equal present due dates but different ids; the claim
requires the higher id first, yet the sort leaves the lower id first. -/
theorem sort_equal_due_counterexample :
    cx1a.done = cx1b.done ∧ cx1a.priority = cx1b.priority ∧
    cx1a.due_date = cx1b.due_date ∧ hasDue cx1a = true ∧ cx1a.id < cx1b.id ∧
    cx1a ≠ cx1b ∧ sortTasks [cx1a, cx1b] = [cx1a, cx1b] :=
  ⟨rfl, rfl, rfl, by decide, by decide, by decide,
    List.mergeSort_of_sorted
      (List.pairwise_cons.2 ⟨by decide, List.pairwise_singleton _ _⟩)⟩

/-- C2 (amended): when the local UTC offset is nonnegative, each filter
mode returns exactly the input tasks satisfying the predicate as worded
in the spec, and the full view is that sub-collection sorted. -/
theorem filter_matches_spec (c : Clock) (f : TaskFilter) (l : List Task)
    (h : 0 ≤ c.tzMs) :
    filterTasks c f l = l.filter (specKeep c f) ∧
    filteredTasks c f l = sortTasks (l.filter (specKeep c f)) := by
  have hmain : filterTasks c f l = l.filter (specKeep c f) := by
    cases f with
    | all => simp [filterTasks, specKeep]
    | open_ => rfl
    | today => exact List.filter_congr fun t _ => isToday_eq_specToday c t h
    | overdue => exact List.filter_congr fun t _ => isOverdue_eq_specOverdue c t h
  exact ⟨hmain, by rw [filteredTasks, hmain]⟩

/-- Witness for C2: the filter equality at a concrete east-of-UTC clock. -/
theorem filter_matches_spec_witness :
    0 ≤ eastClock.tzMs ∧
    filterTasks eastClock .overdue [dueEpochTask] =
      [dueEpochTask].filter (specKeep eastClock .overdue) :=
  ⟨by decide, (filter_matches_spec eastClock .overdue [dueEpochTask] (by decide)).1⟩

/-- Counterexample to C2 as stated: one hour west of UTC, a task due on
the current local day is kept by the overdue filter though the spec
predicate rejects it, and is rejected by the today filter though the spec
predicate keeps it. -/
theorem filter_west_counterexample :
    filterTasks westClock .overdue [dueEpochTask] ≠
      [dueEpochTask].filter (specKeep westClock .overdue) ∧
    filterTasks westClock .today [dueEpochTask] ≠
      [dueEpochTask].filter (specKeep westClock .today) := by
  constructor <;> decide

/-- C3: the stats aggregator is a pure function computing the total
count, the open count, done equal to total minus open, and the due-today
and overdue counts with exactly the day-boundary predicates of the
filter engine. -/
theorem stats_counts (c : Clock) (l : List Task) :
    (stats c l).total = l.length ∧
    (stats c l).open_ = (l.filter (fun t => !t.done)).length ∧
    (stats c l).done = (stats c l).total - (stats c l).open_ ∧
    (stats c l).dueToday = (l.filter (isToday c)).length ∧
    (stats c l).overdue = (l.filter (isOverdue c)).length := by
  refine ⟨rfl, rfl, rfl, ?_, rfl⟩
  simp only [stats]
  congr 1
  apply List.filter_congr
  intro t _
  simp only [statToday, isToday, localDay_startOfToday]

/-- C4 (amended): when the local UTC offset is nonnegative, an open task
whose written due day equals the current local day is classified today
and not overdue; and for every clock the two classifications are
exclusive. -/
theorem today_not_overdue (c : Clock) (t : Task) (htz : 0 ≤ c.tzMs)
    (hdone : t.done = false) (hdue : hasDue t = true)
    (hday : (dueMs t).fdiv msPerDay = localDay c c.nowMs) :
    isToday c t = true ∧ isOverdue c t = false ∧
    (∀ (c2 : Clock) (t2 : Task),
      ¬(isToday c2 t2 = true ∧ isOverdue c2 t2 = true)) := by
  obtain ⟨d, hd⟩ := parseDateMs_dvd (t.due_date.getD [])
  have hdm : dueMs t = d * msPerDay := hd
  have hdq : d = localDay c c.nowMs := by
    rw [hdm, Int.mul_fdiv_cancel d (by decide)] at hday
    exact hday
  refine ⟨?_, ?_, ?_⟩
  · simp only [isToday, hdone, hdue, hdm, Bool.not_false, Bool.true_and]
    rw [localDay_mul_of_nonneg_tz c d htz, hdq]
    simp
  · simp only [isOverdue, hdone, hdue, hdm, Bool.not_false, Bool.true_and,
      startOfToday, decide_eq_false_iff_not, not_lt, hdq]
    have hub := c.tz_ub
    generalize localDay c c.nowMs = q at *
    simp only [msPerDay] at htz ⊢
    omega
  · intro c2 t2 hcontra
    obtain ⟨h1, h2⟩ := hcontra
    simp only [isToday, Bool.and_eq_true, beq_iff_eq] at h1
    simp only [isOverdue, Bool.and_eq_true, decide_eq_true_eq] at h2
    have hq := h1.2
    have hlt := h2.2
    have hb := (fdiv_msPerDay_bounds (dueMs t2 + c2.tzMs)).1
    have hloc : localDay c2 (dueMs t2) = (dueMs t2 + c2.tzMs).fdiv msPerDay := rfl
    rw [hloc] at hq
    rw [hq] at hb
    simp only [startOfToday] at hlt
    generalize localDay c2 c2.nowMs = q at hb hlt
    simp only [msPerDay] at hb hlt
    omega

/-- Witness for C4: a task due on the current local day at an
east-of-UTC clock is classified today. -/
theorem today_not_overdue_witness :
    0 ≤ eastClock.tzMs ∧ isToday eastClock dueEpochTask = true :=
  ⟨by decide,
    (today_not_overdue eastClock dueEpochTask (by decide) (by decide) (by decide)
      (by decide)).1⟩

/-- Counterexample to C4 as stated: one hour west of UTC, an open task
whose written due day equals the current local day is classified overdue
and not today. -/
theorem today_west_counterexample :
    dueEpochTask.done = false ∧ hasDue dueEpochTask = true ∧
    (dueMs dueEpochTask).fdiv msPerDay = localDay westClock westClock.nowMs ∧
    isToday westClock dueEpochTask = false ∧
    isOverdue westClock dueEpochTask = true := by
  refine ⟨by decide, by decide, by decide, by decide, by decide⟩

/-- C5: toggling applies the new done value to the matching task in the
local list before the network call resolves; on failure the list is
restored to its pre-toggle value and the error alert is shown. -/
theorem toggle_optimistic_revert (l : List Task) (x : Task)
    (hx : l.all (fun t => !(t.id == x.id) || (t.done == x.done)) = true) :
    handleToggleDone l x true = (toggleOptimistic l x, false) ∧
    ((toggleOptimistic l x).all
      (fun t => !(t.id == x.id) || (t.done == !x.done))) = true ∧
    handleToggleDone l x false = (l, true) := by
  refine ⟨rfl, ?_, ?_⟩
  · simp only [toggleOptimistic, List.all_map]
    rw [List.all_eq_true]
    intro t _
    by_cases hid : t.id = x.id <;> simp [toggleOne, hid]
  · have hdef : handleToggleDone l x false =
        (toggleRevert (toggleOptimistic l x) x, true) := rfl
    rw [hdef, toggleRevert_toggleOptimistic l x hx]

/-- Witness for C5: a failed toggle on a singleton list restores it. -/
theorem toggle_optimistic_revert_witness :
    ([sampleTask].all
      (fun t => !(t.id == sampleTask.id) || (t.done == sampleTask.done)) = true) ∧
    handleToggleDone [sampleTask] sampleTask false = ([sampleTask], true) :=
  ⟨by decide, (toggle_optimistic_revert [sampleTask] sampleTask (by decide)).2.2⟩

/-- C6: without confirmation no network call is made and the list is
unchanged; with confirmation and success the task is removed from the
local list; with confirmation and failure the list is unchanged and the
error alert is shown. -/
theorem delete_protocol (l : List Task) (x : Task) (apiOk : Bool) :
    handleDelete l x false apiOk = (l, false, false) ∧
    handleDelete l x true true = (l.filter (fun t => t.id != x.id), true, false) ∧
    ((handleDelete l x true true).1.all (fun t => !(t.id == x.id))) = true ∧
    handleDelete l x true false = (l, true, true) := by
  refine ⟨rfl, rfl, ?_, rfl⟩
  show (l.filter (fun t => t.id != x.id)).all (fun t => !(t.id == x.id)) = true
  rw [List.all_eq_true]
  intro t ht
  exact (List.mem_filter.mp ht).2

/-- C7 (amended): for a task whose tags are nonempty, trimmed and
comma-free, loading the task joins the tags with comma-space in order,
and submitting the form yields a payload whose tags equal the original
list for both the create and the update path. -/
theorem tags_roundtrip (x : Task)
    (h : x.tags.all
      (fun t => !t.isEmpty && (trim t == t) && t.all (fun ch => ch != ',')) = true) :
    (formOfTask x).tags = joinTags x.tags ∧
    (createPayload (formOfTask x)).tags = Field.val x.tags ∧
    (updatePayload (updateInputOfForm (formOfTask x))).tags = Field.val x.tags := by
  have h2 : ∀ t ∈ x.tags, t ≠ [] ∧ trim t = t ∧ ',' ∉ t := by
    intro t ht
    have hb := List.all_eq_true.mp h t ht
    simp only [Bool.and_eq_true, beq_iff_eq] at hb
    obtain ⟨⟨hne, htr⟩, hcm⟩ := hb
    refine ⟨?_, htr, ?_⟩
    · intro hnil
      rw [hnil] at hne
      simp at hne
    · intro hmem
      have hch := List.all_eq_true.mp hcm ',' hmem
      simp at hch
  have key := splitTags_joinTags x.tags h2
  refine ⟨rfl, ?_, ?_⟩
  · simp only [createPayload, formOfTask, key]
  · simp only [updatePayload, updateInputOfForm, formOfTask, key]

/-- Witness for C7: the round trip on two ordinary tags. -/
theorem tags_roundtrip_witness :
    (([['a'], ['b']] : List Str).all
      (fun t => !t.isEmpty && (trim t == t) && t.all (fun ch => ch != ',')) = true) ∧
    (createPayload (formOfTask { sampleTask with tags := [['a'], ['b']] })).tags =
      Field.val [['a'], ['b']] :=
  ⟨by decide,
    (tags_roundtrip { sampleTask with tags := [['a'], ['b']] } (by decide)).2.1⟩

/-- Counterexample to C7 as stated: a tag list containing the empty
string (which is trimmed and comma-free) does not round-trip, because the
empty segment is discarded from the payload. -/
theorem tags_roundtrip_counterexample :
    cx7task.tags.all (fun t => (trim t == t) && t.all (fun ch => ch != ',')) = true ∧
    (formOfTask cx7task).tags = joinTags cx7task.tags ∧
    (updatePayload (updateInputOfForm (formOfTask cx7task))).tags =
      Field.val [['a']] ∧
    (createPayload (formOfTask cx7task)).tags = Field.val [['a']] ∧
    ([['a']] : List Str) ≠ cx7task.tags := by
  refine ⟨by decide, rfl, by decide, by decide, by decide⟩

/-- C8: a submission with empty due date and empty notes produces create
and update payloads carrying null for both fields. -/
theorem empty_fields_null (d : TaskFormData) (h1 : d.due_date = [])
    (h2 : d.notes = []) :
    (createPayload d).due_date = Field.null ∧ (createPayload d).notes = Field.null ∧
    (updatePayload (updateInputOfForm d)).due_date = Field.null ∧
    (updatePayload (updateInputOfForm d)).notes = Field.null := by
  simp [createPayload, updatePayload, updateInputOfForm, h1, h2]

/-- Witness for C8: the sample form with empty optional fields. -/
theorem empty_fields_null_witness :
    sampleForm.due_date = [] ∧ sampleForm.notes = [] ∧
    (createPayload sampleForm).due_date = Field.null :=
  ⟨rfl, rfl, (empty_fields_null sampleForm rfl rfl).1⟩

/-- C9: the filter-and-sort view is idempotent for every clock and mode,
sorting twice equals sorting once, and re-sorting an already-sorted list
returns it unchanged. -/
theorem filter_sort_idempotent (c : Clock) (f : TaskFilter) (l : List Task) :
    filteredTasks c f (filteredTasks c f l) = filteredTasks c f l ∧
    sortTasks (sortTasks l) = sortTasks l ∧
    (l.Pairwise (fun a b => cmpTask a b ≤ 0) → sortTasks l = l) := by
  refine ⟨?_, sortTasks_idem l, ?_⟩
  · have hstep : ∀ p : Task → Bool,
        sortTasks ((sortTasks (l.filter p)).filter p) = sortTasks (l.filter p) := by
      intro p
      rw [filter_sortTasks, sortTasks_idem]
    cases f with
    | all => exact sortTasks_idem l
    | open_ => exact hstep _
    | today => exact hstep _
    | overdue => exact hstep _
  · intro hp
    exact List.mergeSort_of_sorted
      (hp.imp fun hh => by simp only [taskLe, decide_eq_true_eq]; exact hh)

/-- Witness for C9: re-sorting a sorted singleton returns it. -/
theorem filter_sort_idempotent_witness : sortTasks [sampleTask] = [sampleTask] :=
  (filter_sort_idempotent eastClock .all [sampleTask]).2.2
    (List.pairwise_singleton _ _)

/-- C10: the toggle payload carries only the done key, and both the
optimistic update and the rollback keep every field except done of the
matching task, leave tasks with other ids untouched, and preserve the
list length. -/
theorem toggle_frame :
    (∀ b : Bool, updatePayload (toggleInput b) =
      { title := Field.absent, priority := Field.absent, done := Field.val b,
        due_date := Field.absent, notes := Field.absent, tags := Field.absent }) ∧
    (∀ x t : Task, ¬t.id = x.id → toggleOne x t = t ∧ revertOne x t = t) ∧
    (∀ x t : Task,
      (toggleOne x t).id = t.id ∧ (toggleOne x t).title = t.title ∧
      (toggleOne x t).priority = t.priority ∧ (toggleOne x t).due_date = t.due_date ∧
      (toggleOne x t).created_at = t.created_at ∧
      (toggleOne x t).updated_at = t.updated_at ∧
      (toggleOne x t).notes = t.notes ∧ (toggleOne x t).tags = t.tags ∧
      (revertOne x t).id = t.id ∧ (revertOne x t).title = t.title ∧
      (revertOne x t).priority = t.priority ∧ (revertOne x t).due_date = t.due_date ∧
      (revertOne x t).created_at = t.created_at ∧
      (revertOne x t).updated_at = t.updated_at ∧
      (revertOne x t).notes = t.notes ∧ (revertOne x t).tags = t.tags) ∧
    (∀ (l : List Task) (x : Task),
      (toggleOptimistic l x).length = l.length ∧
      (toggleRevert l x).length = l.length) := by
  refine ⟨fun b => rfl, ?_, ?_, ?_⟩
  · intro x t hid
    constructor <;> simp [toggleOne, revertOne, hid]
  · intro x t
    by_cases hid : t.id = x.id <;>
      simp [toggleOne, revertOne, hid]
  · intro l x
    constructor <;> simp [toggleOptimistic, toggleRevert]

/-- Witness for C10: a task with a different id is untouched. -/
theorem toggle_frame_witness :
    ¬sampleTask.id = otherTask.id ∧ toggleOne otherTask sampleTask = sampleTask :=
  ⟨by decide, (toggle_frame.2.1 otherTask sampleTask (by decide)).1⟩

end TodoApp
